import Mathlib

/-!
Verification of the structured-logging pipeline of this repository
(src/utils/logging/loggers.py, src/utils/logging/setup.py, src/main.py).

The shallow embedding models Python values appearing in log records as an
inductive `Value`, Python `dict`s (which preserve insertion order, overwrite
in place, and append fresh keys) as association lists with a dict-insert
operation, and the formatter `JsonFormatter._prepare_log_dict` /
`JsonFormatter.format` as functions over an explicit `LogRecord` structure
whose `attrs` field plays the role of `record.__dict__`.
-/

/-- A Python value as it can appear in a log record attribute or in the
formatter's output dictionary.  `vobj s` stands for an arbitrary
non-JSON-native object whose `str()` rendering is `s`. -/
inductive Value where
  | vstr (s : String)
  | vint (n : Int)
  | vbool (b : Bool)
  | vnone
  | vobj (render : String)
deriving DecidableEq, Repr

/-- A Python dict with string keys, modelled as an insertion-ordered
association list (as CPython dicts are). -/
abbrev PyDict := List (String × Value)

/-- The keys of a dict, in insertion order. -/
def dkeys (d : PyDict) : List String := d.map Prod.fst

/-- Lookup `d[k]`, `none` when the key is absent. -/
def dget (d : PyDict) (k : String) : Option Value :=
  match d with
  | [] => none
  | (k', v) :: rest => if k' = k then some v else dget rest k

/-- Assignment `d[k] = v`: overwrite in place when `k` is already a key
(keeping its position, as Python dicts do), append otherwise. -/
def dinsert (d : PyDict) (k : String) (v : Value) : PyDict :=
  match d with
  | [] => [(k, v)]
  | (k', w) :: rest => if k' = k then (k, v) :: rest else (k', w) :: dinsert rest k v

/-- Removal of a key, the mutation part of `d.pop(k, None)`. -/
def dremove (d : PyDict) (k : String) : PyDict :=
  d.filter (fun p => decide (p.1 ≠ k))

/-- Python `d.pop(k, None)`: the popped value (or `none`) and the remaining dict. -/
def dpop (d : PyDict) (k : String) : Option Value × PyDict :=
  (dget d k, dremove d k)

/-- Python `d.update(e)`: existing keys are overwritten in place,
fresh keys are appended in the order of `e`. -/
def dupdate (d e : PyDict) : PyDict :=
  e.foldl (fun a p => dinsert a p.1 p.2) d

/-- The logging module's numeric severity levels. -/
def DEBUG : Nat := 10
/-- logging.INFO -/
def INFO : Nat := 20
/-- logging.WARNING -/
def WARNING : Nat := 30
/-- logging.ERROR -/
def ERROR : Nat := 40
/-- logging.CRITICAL -/
def CRITICAL : Nat := 50

/-- The set `LOG_RECORD_BUILTIN_ATTRS` from src/utils/logging/loggers.py, in the
order written there.  Note that `"timestamp"` is not a member. -/
def LOG_RECORD_BUILTIN_ATTRS : List String :=
  ["args", "asctime", "created", "exc_info", "exc_text", "filename",
   "funcName", "levelname", "levelno", "lineno", "message", "module",
   "msecs", "msg", "name", "pathname", "process", "processName",
   "relativeCreated", "stack_info", "taskName", "thread", "threadName"]

/-- A `logging.LogRecord` at formatting time.  `rendered` is the result of
`record.getMessage()` (template with arguments already substituted),
`created` the creation instant in whole seconds since the epoch, and
`attrs` is `record.__dict__`: the built-in attributes followed by any
caller-supplied extra fields, in insertion order. -/
structure LogRecord where
  levelno : Nat
  levelname : String
  rendered : String
  created : Nat
  exc_info : Option String
  stack_info : Option String
  attrs : List (String × Value)
deriving DecidableEq, Repr

/-- Python `getattr(record, name)`: attribute lookup through `record.__dict__`;
`none` models the AttributeError raised when the attribute is absent. -/
def getattr (r : LogRecord) (name : String) : Option Value :=
  dget r.attrs name

/-- Two-digit zero padding, as used by `datetime.isoformat`. -/
def pad2 (n : Nat) : String :=
  if n < 10 then "0" ++ toString n else toString n

/-- Civil date (year, month, day) from a count of days since 1970-01-01,
the standard Gregorian conversion used by `datetime.fromtimestamp`. -/
def civilFromDays (z : Nat) : Nat × Nat × Nat :=
  let z' := z + 719468
  let era := z' / 146097
  let doe := z' % 146097
  let yoe := (doe - doe / 1460 + doe / 36524 - doe / 146096) / 365
  let y := yoe + era * 400
  let doy := doe - (365 * yoe + yoe / 4 - yoe / 100)
  let mp := (5 * doy + 2) / 153
  let d := doy - (153 * mp + 2) / 5 + 1
  let m := if mp < 10 then mp + 3 else mp - 9
  (if m ≤ 2 then y + 1 else y, m, d)

/-- Rendering `datetime.fromtimestamp(t, tz=timezone.utc).isoformat()` for a
whole-second timestamp: ISO-8601 date and time with the UTC offset. -/
def isoUtc (t : Nat) : String :=
  let days := t / 86400
  let secs := t % 86400
  let ymd := civilFromDays days
  toString ymd.1 ++ "-" ++ pad2 ymd.2.1 ++ "-" ++ pad2 ymd.2.2 ++ "T" ++
    pad2 (secs / 3600) ++ ":" ++ pad2 ((secs % 3600) / 60) ++ ":" ++
    pad2 (secs % 60) ++ "+00:00"

/-- A string is an ISO-8601 UTC timestamp when some instant renders to it. -/
def IsIso8601Utc (s : String) : Prop := ∃ t : Nat, s = isoUtc t

/-- Stdlib `Formatter.formatException`, modelled as returning the pre-rendered
traceback text carried by the record's `exc_info`. -/
def formatException (e : String) : String := e

/-- Stdlib `Formatter.formatStack`, modelled as returning the stack text. -/
def formatStack (s : String) : String := s

/-- The `always_fields` dict built at the top of
`JsonFormatter._prepare_log_dict`: the rendered message, the ISO-8601 UTC
timestamp, and, when present on the record, the formatted exception and
stack information. -/
def always_fields (r : LogRecord) : PyDict :=
  [("message", Value.vstr r.rendered),
   ("timestamp", Value.vstr (isoUtc r.created))]
  ++ (match r.exc_info with
      | some e => [("exc_info", Value.vstr (formatException e))]
      | none => [])
  ++ (match r.stack_info with
      | some s => [("stack_info", Value.vstr (formatStack s))]
      | none => [])

/-- One step of the dict comprehension over `fmt_keys` in
`_prepare_log_dict`: for an entry `(key, src)`, pop `src` from the
remaining always-fields; if the popped value exists and is not `None`,
emit it under `key`, otherwise fall back to `getattr(record, src)`
(`none` when that attribute is absent, modelling the AttributeError). -/
def fmtStep (r : LogRecord) (acc : Option (PyDict × PyDict)) (kv : String × String) :
    Option (PyDict × PyDict) :=
  match acc with
  | none => none
  | some (msg, af) =>
    match dpop af kv.2 with
    | (some v, af') =>
      if v = Value.vnone then
        match getattr r kv.2 with
        | some w => some (dinsert msg kv.1 w, af')
        | none => none
      else some (dinsert msg kv.1 v, af')
    | (none, af') =>
      match getattr r kv.2 with
      | some w => some (dinsert msg kv.1 w, af')
      | none => none

/-- The final loop of `_prepare_log_dict`: add every `record.__dict__`
entry whose key is not in `LOG_RECORD_BUILTIN_ATTRS` to the dict. -/
def extrasFold (attrs : List (String × Value)) (d : PyDict) : PyDict :=
  attrs.foldl
    (fun d p => if p.1 ∈ LOG_RECORD_BUILTIN_ATTRS then d else dinsert d p.1 p.2) d

/-- Method `JsonFormatter._prepare_log_dict`: apply the `fmt_keys` mapping in its
order, then `message.update(always_fields)` with whatever always-fields
were not consumed, then append every `record.__dict__` entry whose key is
not in `LOG_RECORD_BUILTIN_ATTRS`.  Returns `none` when a mapped source is
neither an always-field nor a record attribute (AttributeError). -/
def prepare_log_dict (fmt_keys : List (String × String)) (r : LogRecord) :
    Option PyDict :=
  match fmt_keys.foldl (fmtStep r) (some ([], always_fields r)) with
  | none => none
  | some (msg, af) => some (extrasFold r.attrs (dupdate msg af))

/-- Python `str(v)` for our values, the `default=str` fallback of
`json.dumps` in `JsonFormatter.format`. -/
def pyStr : Value → String
  | .vstr s => s
  | .vint n => toString n
  | .vbool b => if b then "True" else "False"
  | .vnone => "None"
  | .vobj s => s

/-- Minimal JSON string escaping used by the serializer model. -/
def jsonEscape (s : String) : String :=
  s.foldl
    (fun acc c =>
      if c = '"' then acc ++ "\\\""
      else if c = '\\' then acc ++ "\\\\"
      else acc ++ String.singleton c) ""

/-- A JSON string literal. -/
def jsonString (s : String) : String := "\"" ++ jsonEscape s ++ "\""

/-- Encoding of one value by the JSON encoder without any `default`
hook: non-native objects (`vobj`) are not representable and fail. -/
def encodeNative : Value → Option String
  | .vstr s => some (jsonString s)
  | .vint n => some (toString n)
  | .vbool b => some (if b then "true" else "false")
  | .vnone => some "null"
  | .vobj _ => none

/-- Encoding of one value with an optional `default` hook, as in
`json.dumps(..., default=...)`: natively representable values encode
directly, all others go through the hook (whose string result is then
encoded as a JSON string) when the hook is present, and fail otherwise. -/
def encodeWithDefault (dflt : Option (Value → String)) (v : Value) : Option String :=
  match encodeNative v with
  | some s => some s
  | none =>
    match dflt with
    | some f => some (jsonString (f v))
    | none => none

/-- Encode every entry of the output dict. -/
def encodeEntries (dflt : Option (Value → String)) : PyDict → Option (List String)
  | [] => some []
  | (k, v) :: rest =>
    match encodeWithDefault dflt v, encodeEntries dflt rest with
    | some s, some ss => some ((jsonString k ++ ": " ++ s) :: ss)
    | _, _ => none

/-- Stdlib `json.dumps` over the prepared dict: encode each entry and join,
compact or indented according to the formatter's `indent` setting. -/
def dumps (dflt : Option (Value → String)) (indent : Option Bool) (d : PyDict) :
    Option String :=
  (encodeEntries dflt d).map (fun ss =>
    match indent with
    | some _ => "\x7b\n " ++ String.intercalate ",\n " ss ++ "\n\x7d"
    | none => "\x7b" ++ String.intercalate ", " ss ++ "\x7d")

/-- Method `JsonFormatter.format`: prepare the log dict and serialize it with
`json.dumps(message, default=str, indent=self.indent)`. -/
def JsonFormatter.format (fmt_keys : List (String × String)) (indent : Option Bool)
    (r : LogRecord) : Option String :=
  (prepare_log_dict fmt_keys r).bind (dumps (some pyStr) indent)

/-- Method `NonErrorFilter.filter` from src/utils/logging/loggers.py:
`record.levelno <= logging.INFO`. -/
def NonErrorFilter.filter (r : LogRecord) : Bool :=
  r.levelno ≤ INFO

/-- Removal of all mapped source names from the always-fields dict, the
cumulative effect on `always_fields` of the pops performed while iterating
`fmt_keys`. -/
def removeSources (fks : List (String × String)) (af : PyDict) : PyDict :=
  fks.foldl (fun a p => dremove a p.2) af

/-- The four reserved output names of the always-present fields. -/
def reservedNames : List String :=
  ["message", "timestamp", "exc_info", "stack_info"]

/-- Modelled from the spec: the state machine of the AsyncBridge (the
queue listener behind the repository's `queue_handler`); its
implementation is not part of the repository sources, only started and
stopped from src/utils/logging/setup.py. -/
inductive BridgeState where
  | unstarted
  | running
  | stopped
deriving DecidableEq, Repr

/-- Modelled from the spec: an AsyncBridge holds its lifecycle state, the
queue of pending records, and the list of records already delivered to the
Dispatcher, in delivery order. -/
structure Bridge where
  state : BridgeState
  queue : List LogRecord
  delivered : List LogRecord
deriving DecidableEq, Repr

/-- Modelled from the spec: `start()` moves UNSTARTED to RUNNING and
spawns the single consumer. -/
def Bridge.start (b : Bridge) : Bridge :=
  match b.state with
  | .unstarted => { b with state := .running }
  | _ => b

/-- Modelled from the spec: `put(record)` enqueues at the tail while the
bridge is RUNNING (FIFO); it is only valid in the RUNNING state. -/
def Bridge.put (b : Bridge) (r : LogRecord) : Bridge :=
  match b.state with
  | .running => { b with queue := b.queue ++ [r] }
  | _ => b

/-- Modelled from the spec: `stop()` signals the consumer, which drains
every remaining queued record to the Dispatcher before the state becomes
STOPPED; `stop()` on an UNSTARTED or STOPPED bridge is a no-op. -/
def Bridge.stop (b : Bridge) : Bridge :=
  match b.state with
  | .running =>
    { state := .stopped, queue := [], delivered := b.delivered ++ b.queue }
  | _ => b

/-- The observable process-wide logging state acted on by
`setup_logging` in src/utils/logging/setup.py: whether the parsed
configuration defines a `queue_handler` (fixed by the config file), how
many listener threads have been started, and how many `atexit` shutdown
hooks have been registered (`atexit.register` appends a new entry on every
call). -/
structure SysState where
  configHasQueueHandler : Bool
  startedListeners : Nat
  atexitHooks : Nat
deriving DecidableEq, Repr

/-- Function `setup_logging` from src/utils/logging/setup.py: load the
configuration, apply `dictConfig`, and when a `queue_handler` exists,
start its listener thread and register `listener.stop` with `atexit` —
both unconditionally on every call. -/
def setup_logging (s : SysState) : SysState :=
  if s.configHasQueueHandler then
    { s with startedListeners := s.startedListeners + 1,
             atexitHooks := s.atexitHooks + 1 }
  else s

/-- The built-in part of `record.__dict__` for a record logged from
src/main.py, in `LogRecord.__init__` order (note: neither `message` nor
`asctime` is an instance attribute at formatting time). -/
def builtinAttrsOf (lvlname : String) (lvl : Nat) (template : String) :
    List (String × Value) :=
  [("name", Value.vstr "app"), ("msg", Value.vstr template),
   ("args", Value.vnone), ("levelname", Value.vstr lvlname),
   ("levelno", Value.vint (Int.ofNat lvl)),
   ("pathname", Value.vstr "main.py"), ("filename", Value.vstr "main.py"),
   ("module", Value.vstr "main"), ("exc_info", Value.vnone),
   ("exc_text", Value.vnone), ("stack_info", Value.vnone),
   ("lineno", Value.vint 12), ("funcName", Value.vstr "main"),
   ("created", Value.vobj "1700000000.0"), ("msecs", Value.vobj "0.0"),
   ("relativeCreated", Value.vobj "1.0"), ("thread", Value.vint 1),
   ("threadName", Value.vstr "MainThread"),
   ("processName", Value.vstr "MainProcess"), ("process", Value.vint 7),
   ("taskName", Value.vnone)]

/-- The record emitted by the `logger.info` call with
`extra` note field in src/main.py. -/
def rApp : LogRecord :=
  { levelno := 20, levelname := "INFO", rendered := "Started application",
    created := 1700000000, exc_info := none, stack_info := none,
    attrs := builtinAttrsOf "INFO" 20 "Started application" ++
      [("note", Value.vstr "some extra info here")] }

/-- The `fmt_keys` mapping exercised by the spec's end-to-end example. -/
def fmtKeysJson : List (String × String) :=
  [("level", "levelname"), ("message", "message"), ("timestamp", "timestamp")]

/-- A record carrying a caller-supplied extra field named `timestamp`
(accepted by `Logger.makeRecord`, since `timestamp` is not an existing
record attribute). -/
def rShadow : LogRecord :=
  { levelno := 20, levelname := "INFO", rendered := "hello",
    created := 0, exc_info := none, stack_info := none,
    attrs := builtinAttrsOf "INFO" 20 "hello" ++
      [("timestamp", Value.vstr "boom")] }

/-- A plain record with no extra fields. -/
def rPlain : LogRecord :=
  { levelno := 20, levelname := "INFO", rendered := "hello",
    created := 0, exc_info := none, stack_info := none,
    attrs := builtinAttrsOf "INFO" 20 "hello" }

/-- A record with exception and stack information and one extra field. -/
def rExc : LogRecord :=
  { levelno := 40, levelname := "ERROR", rendered := "boom happened",
    created := 0, exc_info := some "Traceback: ValueError",
    stack_info := some "Stack: main", attrs :=
      builtinAttrsOf "ERROR" 40 "boom happened" ++ [("note", Value.vstr "ctx")] }

/-- The names of the caller-supplied extra fields of a record: the keys of
`record.__dict__` that are not built-in LogRecord attributes. -/
def extraKeys (attrs : List (String × Value)) : List String :=
  dkeys (attrs.filter (fun p => !decide (p.1 ∈ LOG_RECORD_BUILTIN_ATTRS)))

/-- A record carrying a non-JSON-native extra value. -/
def rObj : LogRecord :=
  { levelno := 20, levelname := "INFO", rendered := "payload attached",
    created := 0, exc_info := none, stack_info := none,
    attrs := builtinAttrsOf "INFO" 20 "payload attached" ++
      [("payload", Value.vobj "Payload object at 0x7f")] }

/-- A record whose extra field name collides with a mapped output key. -/
def rCollide : LogRecord :=
  { levelno := 20, levelname := "INFO", rendered := "hello",
    created := 0, exc_info := none, stack_info := none,
    attrs := builtinAttrsOf "INFO" 20 "hello" ++ [("note", Value.vstr "x")] }



theorem dkeys_nil : dkeys ([] : PyDict) = [] := rfl

theorem dkeys_cons (p : String × Value) (d : PyDict) :
    dkeys (p :: d) = p.1 :: dkeys d := rfl

theorem dkeys_append (a b : PyDict) : dkeys (a ++ b) = dkeys a ++ dkeys b := by
  simp [dkeys]

theorem mem_dkeys_cons (p : String × Value) (d : PyDict) (k : String) :
    k ∈ dkeys (p :: d) ↔ k = p.1 ∨ k ∈ dkeys d := by
  rw [dkeys_cons]
  exact List.mem_cons

theorem not_mem_dkeys_cons (p : String × Value) (d : PyDict) (k : String)
    (h : k ∉ dkeys (p :: d)) : k ≠ p.1 ∧ k ∉ dkeys d := by
  rw [mem_dkeys_cons] at h
  push_neg at h
  exact h

theorem dget_dinsert_self (d : PyDict) (k : String) (v : Value) :
    dget (dinsert d k v) k = some v := by
  induction d with
  | nil => simp [dinsert, dget]
  | cons p rest ih =>
    obtain ⟨k1, w⟩ := p
    by_cases h : k1 = k
    · simp [dinsert, dget, h]
    · simp [dinsert, dget, h, ih]

theorem dget_dinsert_ne (d : PyDict) (k k' : String) (v : Value) (h : k' ≠ k) :
    dget (dinsert d k v) k' = dget d k' := by
  induction d with
  | nil => simp [dinsert, dget, Ne.symm h]
  | cons p rest ih =>
    obtain ⟨k1, w⟩ := p
    by_cases h1 : k1 = k
    · subst h1
      simp [dinsert, dget, Ne.symm h]
    · by_cases h2 : k1 = k'
      · simp [dinsert, dget, h1, h2, h]
      · simp [dinsert, dget, h1, h2, ih]

theorem mem_dkeys_dinsert (d : PyDict) (k k' : String) (v : Value) :
    k' ∈ dkeys (dinsert d k v) ↔ k' ∈ dkeys d ∨ k' = k := by
  induction d with
  | nil => simp [dinsert, dkeys]
  | cons p rest ih =>
    obtain ⟨k1, w⟩ := p
    by_cases h1 : k1 = k
    · subst h1
      simp [dinsert, mem_dkeys_cons]
      tauto
    · simp [dinsert, h1, mem_dkeys_cons, ih]
      tauto

theorem dkeys_dinsert_of_not_mem (d : PyDict) (k : String) (v : Value)
    (h : k ∉ dkeys d) : dkeys (dinsert d k v) = dkeys d ++ [k] := by
  induction d with
  | nil => simp [dinsert, dkeys]
  | cons p rest ih =>
    obtain ⟨k1, w⟩ := p
    obtain ⟨h1, h2⟩ := not_mem_dkeys_cons _ _ _ h
    simp [dinsert, Ne.symm h1, dkeys_cons, ih h2]

theorem dkeys_dinsert_of_mem (d : PyDict) (k : String) (v : Value)
    (h : k ∈ dkeys d) : dkeys (dinsert d k v) = dkeys d := by
  induction d with
  | nil => simp [dkeys] at h
  | cons p rest ih =>
    obtain ⟨k1, w⟩ := p
    by_cases h1 : k1 = k
    · simp [dinsert, h1, dkeys_cons]
    · have h2 : k ∈ dkeys rest := by
        rcases (mem_dkeys_cons _ _ _).mp h with hc | hc
        · exact absurd hc.symm h1
        · exact hc
      simp [dinsert, h1, dkeys_cons, ih h2]

theorem dget_dremove_ne (d : PyDict) (k k' : String) (h : k' ≠ k) :
    dget (dremove d k) k' = dget d k' := by
  induction d with
  | nil => simp [dremove, dget]
  | cons p rest ih =>
    obtain ⟨k1, w⟩ := p
    by_cases h1 : k1 = k
    · subst h1
      rw [show dremove ((k1, w) :: rest) k1 = dremove rest k1 from by
        simp [dremove, List.filter]]
      rw [ih]
      have hne : k1 ≠ k' := fun hh => h hh.symm
      simp [dget, hne]
    · rw [show dremove ((k1, w) :: rest) k = (k1, w) :: dremove rest k from by
        simp [dremove, List.filter, h1]]
      by_cases h2 : k1 = k'
      · simp [dget, h2]
      · simp [dget, h2, ih]

theorem dremove_of_not_mem (d : PyDict) (k : String) (h : k ∉ dkeys d) :
    dremove d k = d := by
  induction d with
  | nil => rfl
  | cons p rest ih =>
    obtain ⟨h1, h2⟩ := not_mem_dkeys_cons _ _ _ h
    rw [show dremove (p :: rest) k = p :: dremove rest k from by
      simp [dremove, List.filter, Ne.symm h1]]
    rw [ih h2]

theorem dkeys_filter_key (d : PyDict) (f : String → Bool) :
    dkeys (d.filter (fun p => f p.1)) = (dkeys d).filter f := by
  induction d with
  | nil => rfl
  | cons p rest ih =>
    by_cases h : f p.1
    · rw [show (p :: rest).filter (fun p => f p.1) =
            p :: rest.filter (fun p => f p.1) from by simp [List.filter, h]]
      rw [dkeys_cons, dkeys_cons, ih]
      rw [show (p.1 :: dkeys rest).filter f = p.1 :: (dkeys rest).filter f from by
        simp [List.filter, h]]
    · simp only [Bool.not_eq_true] at h
      rw [show (p :: rest).filter (fun p => f p.1) =
            rest.filter (fun p => f p.1) from by simp [List.filter, h]]
      rw [ih, dkeys_cons]
      rw [show (p.1 :: dkeys rest).filter f = (dkeys rest).filter f from by
        simp [List.filter, h]]

theorem dkeys_dremove (d : PyDict) (k : String) :
    dkeys (dremove d k) = (dkeys d).filter (fun x => decide (x ≠ k)) := by
  simpa [dremove] using dkeys_filter_key d (fun x => decide (x ≠ k))

theorem nodup_dkeys_dremove (d : PyDict) (k : String)
    (h : (dkeys d).Nodup) : (dkeys (dremove d k)).Nodup := by
  rw [dkeys_dremove]
  exact h.filter _

theorem dget_dupdate (d e : PyDict) (k : String) (he : (dkeys e).Nodup) :
    dget (dupdate d e) k =
      match dget e k with
      | some v => some v
      | none => dget d k := by
  induction e generalizing d with
  | nil => simp [dupdate, dget]
  | cons p rest ih =>
    obtain ⟨k1, w⟩ := p
    rw [dkeys_cons] at he
    have h1 : k1 ∉ dkeys rest := by simpa using (List.nodup_cons.mp he).1
    have h2 : (dkeys rest).Nodup := (List.nodup_cons.mp he).2
    show dget (dupdate (dinsert d k1 w) rest) k = _
    rw [ih _ h2]
    by_cases hk : k = k1
    · subst hk
      have : dget rest k = none := by
        cases hg : dget rest k with
        | none => rfl
        | some v =>
          exfalso
          apply h1
          clear ih h2 h1 he
          induction rest with
          | nil => simp [dget] at hg
          | cons q tl ihq =>
            by_cases hq : q.1 = k
            · simp [dkeys_cons, hq]
            · rw [dkeys_cons]
              simp only [dget, hq, if_neg] at hg
              exact List.mem_cons.mpr (Or.inr (ihq hg))
      simp [this, dget, dget_dinsert_self]
    · have hne : k1 ≠ k := fun hh => hk hh.symm
      have : dget ((k1, w) :: rest) k = dget rest k := by
        simp [dget, hne]
      rw [this, dget_dinsert_ne _ _ _ _ hk]

theorem mem_dkeys_dupdate (d e : PyDict) (k : String) :
    k ∈ dkeys (dupdate d e) ↔ k ∈ dkeys d ∨ k ∈ dkeys e := by
  induction e generalizing d with
  | nil => simp [dupdate, dkeys]
  | cons p rest ih =>
    show k ∈ dkeys (dupdate (dinsert d p.1 p.2) rest) ↔ _
    rw [ih, mem_dkeys_dinsert, mem_dkeys_cons]
    tauto

theorem dupdate_append (d e : PyDict) (hd : ∀ k ∈ dkeys e, k ∉ dkeys d)
    (he : (dkeys e).Nodup) : dupdate d e = d ++ e := by
  induction e generalizing d with
  | nil => simp [dupdate]
  | cons p rest ih =>
    show dupdate (dinsert d p.1 p.2) rest = d ++ p :: rest
    have hp : p.1 ∉ dkeys d := hd p.1 (by simp [dkeys_cons])
    have hins : dinsert d p.1 p.2 = d ++ [p] := by
      clear ih hd he
      induction d with
      | nil => simp [dinsert]
      | cons q tl ihq =>
        obtain ⟨h1, h2⟩ := not_mem_dkeys_cons _ _ _ hp
        simp [dinsert, Ne.symm h1, ihq h2]
    rw [hins, ih]
    · simp
    · intro k hk
      rw [dkeys_append]
      rw [dkeys_cons] at *
      intro hmem
      rcases List.mem_append.mp hmem with hm | hm
      · exact hd k (List.mem_cons.mpr (Or.inr hk)) hm
      · have : k = p.1 := by simpa [dkeys] using hm
        exact (List.nodup_cons.mp he).1 (this ▸ hk)
    · exact (List.nodup_cons.mp he).2

theorem dinsert_of_not_mem (d : PyDict) (k : String) (v : Value)
    (h : k ∉ dkeys d) : dinsert d k v = d ++ [(k, v)] := by
  induction d with
  | nil => simp [dinsert]
  | cons q tl ih =>
    obtain ⟨h1, h2⟩ := not_mem_dkeys_cons _ _ _ h
    simp [dinsert, Ne.symm h1, ih h2]

theorem extraKeys_cons_builtin (p : String × Value) (attrs : List (String × Value))
    (h : p.1 ∈ LOG_RECORD_BUILTIN_ATTRS) :
    extraKeys (p :: attrs) = extraKeys attrs := by
  simp [extraKeys, List.filter, h]

theorem extraKeys_cons_extra (p : String × Value) (attrs : List (String × Value))
    (h : p.1 ∉ LOG_RECORD_BUILTIN_ATTRS) :
    extraKeys (p :: attrs) = p.1 :: extraKeys attrs := by
  simp [extraKeys, List.filter, h, dkeys_cons]

theorem dget_extrasFold (attrs : List (String × Value)) (d : PyDict) (k : String)
    (h : k ∉ extraKeys attrs) : dget (extrasFold attrs d) k = dget d k := by
  induction attrs generalizing d with
  | nil => rfl
  | cons p rest ih =>
    by_cases hb : p.1 ∈ LOG_RECORD_BUILTIN_ATTRS
    · rw [extraKeys_cons_builtin _ _ hb] at h
      show dget (extrasFold rest (if p.1 ∈ LOG_RECORD_BUILTIN_ATTRS then d
        else dinsert d p.1 p.2)) k = dget d k
      rw [if_pos hb]
      exact ih d h
    · rw [extraKeys_cons_extra _ _ hb] at h
      have hk : k ≠ p.1 := fun hh => h (hh ▸ List.mem_cons_self _ _)
      have hrest : k ∉ extraKeys rest := fun hh => h (List.mem_cons.mpr (Or.inr hh))
      show dget (extrasFold rest (if p.1 ∈ LOG_RECORD_BUILTIN_ATTRS then d
        else dinsert d p.1 p.2)) k = dget d k
      rw [if_neg hb, ih _ hrest, dget_dinsert_ne _ _ _ _ hk]

theorem mem_dkeys_extrasFold (attrs : List (String × Value)) (d : PyDict) (k : String) :
    k ∈ dkeys (extrasFold attrs d) ↔ k ∈ dkeys d ∨ k ∈ extraKeys attrs := by
  induction attrs generalizing d with
  | nil => simp [extrasFold, extraKeys, dkeys]
  | cons p rest ih =>
    show k ∈ dkeys (extrasFold rest (if p.1 ∈ LOG_RECORD_BUILTIN_ATTRS then d
      else dinsert d p.1 p.2)) ↔ _
    by_cases hb : p.1 ∈ LOG_RECORD_BUILTIN_ATTRS
    · rw [if_pos hb, ih, extraKeys_cons_builtin _ _ hb]
    · rw [if_neg hb, ih, extraKeys_cons_extra _ _ hb, mem_dkeys_dinsert,
        List.mem_cons]
      tauto

theorem extrasFold_append (attrs : List (String × Value)) (d : PyDict)
    (hnd : (extraKeys attrs).Nodup) (hdisj : ∀ k ∈ extraKeys attrs, k ∉ dkeys d) :
    extrasFold attrs d =
      d ++ attrs.filter (fun p => !decide (p.1 ∈ LOG_RECORD_BUILTIN_ATTRS)) := by
  induction attrs generalizing d with
  | nil => simp [extrasFold]
  | cons p rest ih =>
    show extrasFold rest (if p.1 ∈ LOG_RECORD_BUILTIN_ATTRS then d
      else dinsert d p.1 p.2) = _
    by_cases hb : p.1 ∈ LOG_RECORD_BUILTIN_ATTRS
    · rw [if_pos hb]
      rw [extraKeys_cons_builtin _ _ hb] at hnd hdisj
      rw [show (p :: rest).filter (fun p => !decide (p.1 ∈ LOG_RECORD_BUILTIN_ATTRS)) =
          rest.filter (fun p => !decide (p.1 ∈ LOG_RECORD_BUILTIN_ATTRS)) from by
        simp [List.filter, hb]]
      exact ih d hnd hdisj
    · rw [if_neg hb]
      rw [extraKeys_cons_extra _ _ hb] at hnd hdisj
      have hp : p.1 ∉ dkeys d := hdisj p.1 (List.mem_cons_self _ _)
      rw [dinsert_of_not_mem _ _ _ hp]
      rw [show (p :: rest).filter (fun p => !decide (p.1 ∈ LOG_RECORD_BUILTIN_ATTRS)) =
          p :: rest.filter (fun p => !decide (p.1 ∈ LOG_RECORD_BUILTIN_ATTRS)) from by
        simp [List.filter, hb]]
      rw [ih]
      · simp
      · exact (List.nodup_cons.mp hnd).2
      · intro k hk
        intro hmem
        rw [dkeys_append] at hmem
        rcases List.mem_append.mp hmem with hm | hm
        · exact hdisj k (List.mem_cons.mpr (Or.inr hk)) hm
        · have hkp : k = p.1 := by simpa [dkeys] using hm
          exact (List.nodup_cons.mp hnd).1 (hkp ▸ hk)

theorem foldl_fmtStep_none (r : LogRecord) (fks : List (String × String)) :
    List.foldl (fmtStep r) none fks = none := by
  induction fks with
  | nil => rfl
  | cons kv rest ih => simpa [fmtStep] using ih

theorem fmtStep_some_elim (r : LogRecord) (m af : PyDict) (kv : String × String)
    (q : PyDict × PyDict) (h : fmtStep r (some (m, af)) kv = some q) :
    ∃ w, q = (dinsert m kv.1 w, dremove af kv.2) := by
  cases hg : dget af kv.2 with
  | none =>
    cases ha : getattr r kv.2 with
    | none =>
      rw [show fmtStep r (some (m, af)) kv = none from by
        simp [fmtStep, dpop, hg, ha]] at h
      cases h
    | some w =>
      rw [show fmtStep r (some (m, af)) kv =
          some (dinsert m kv.1 w, dremove af kv.2) from by
        simp [fmtStep, dpop, hg, ha]] at h
      exact ⟨w, (Option.some_inj.mp h).symm⟩
  | some v =>
    by_cases hv : v = Value.vnone
    · cases ha : getattr r kv.2 with
      | none =>
        rw [show fmtStep r (some (m, af)) kv = none from by
          simp [fmtStep, dpop, hg, hv, ha]] at h
        cases h
      | some w =>
        rw [show fmtStep r (some (m, af)) kv =
            some (dinsert m kv.1 w, dremove af kv.2) from by
          simp [fmtStep, dpop, hg, hv, ha]] at h
        exact ⟨w, (Option.some_inj.mp h).symm⟩
    · rw [show fmtStep r (some (m, af)) kv =
          some (dinsert m kv.1 v, dremove af kv.2) from by
        simp [fmtStep, dpop, hg, hv]] at h
      exact ⟨v, (Option.some_inj.mp h).symm⟩

theorem foldl_fmtStep_spec (r : LogRecord) (fks : List (String × String))
    (m0 af0 m af' : PyDict)
    (h : List.foldl (fmtStep r) (some (m0, af0)) fks = some (m, af')) :
    af' = removeSources fks af0 ∧
    (∀ k, k ∈ dkeys m ↔ k ∈ dkeys m0 ∨ k ∈ fks.map Prod.fst) ∧
    (∀ k, k ∉ fks.map Prod.fst → dget m k = dget m0 k) := by
  induction fks generalizing m0 af0 with
  | nil =>
    obtain ⟨hm, ha⟩ : m0 = m ∧ af0 = af' := by
      simpa using h
    subst hm; subst ha
    exact ⟨rfl, fun k => by simp, fun k _ => rfl⟩
  | cons kv rest ih =>
    rw [List.foldl_cons] at h
    cases hstep : fmtStep r (some (m0, af0)) kv with
    | none =>
      rw [hstep] at h
      exact absurd (foldl_fmtStep_none r rest ▸ h) (by simp [foldl_fmtStep_none])
    | some q =>
      rw [hstep] at h
      obtain ⟨w, hq⟩ := fmtStep_some_elim r m0 af0 kv q hstep
      subst hq
      obtain ⟨h1, h2, h3⟩ := ih _ _ h
      refine ⟨?_, ?_, ?_⟩
      · rw [h1]
        rfl
      · intro k
        rw [h2 k, mem_dkeys_dinsert]
        simp only [List.map_cons, List.mem_cons]
        tauto
      · intro k hk
        simp only [List.map_cons, List.mem_cons] at hk
        push_neg at hk
        rw [h3 k hk.2, dget_dinsert_ne _ _ _ _ hk.1]

theorem foldl_fmtStep_keys_exact (r : LogRecord) (fks : List (String × String))
    (m0 af0 m af' : PyDict)
    (h : List.foldl (fmtStep r) (some (m0, af0)) fks = some (m, af'))
    (hnd : (fks.map Prod.fst).Nodup)
    (hfresh : ∀ k ∈ fks.map Prod.fst, k ∉ dkeys m0) :
    dkeys m = dkeys m0 ++ fks.map Prod.fst := by
  induction fks generalizing m0 af0 with
  | nil =>
    obtain ⟨hm, _⟩ : m0 = m ∧ af0 = af' := by simpa using h
    subst hm
    simp
  | cons kv rest ih =>
    rw [List.foldl_cons] at h
    cases hstep : fmtStep r (some (m0, af0)) kv with
    | none =>
      rw [hstep] at h
      exact absurd (foldl_fmtStep_none r rest ▸ h) (by simp [foldl_fmtStep_none])
    | some q =>
      rw [hstep] at h
      obtain ⟨w, hq⟩ := fmtStep_some_elim r m0 af0 kv q hstep
      subst hq
      simp only [List.map_cons] at hnd hfresh ⊢
      have hk1 : kv.1 ∉ dkeys m0 := hfresh kv.1 (List.mem_cons_self _ _)
      have hins : dkeys (dinsert m0 kv.1 w) = dkeys m0 ++ [kv.1] :=
        dkeys_dinsert_of_not_mem _ _ _ hk1
      rw [ih _ _ h (List.nodup_cons.mp hnd).2 ?fresh, hins]
      · simp
      case fresh =>
        intro k hk
        rw [hins]
        intro hmem
        rcases List.mem_append.mp hmem with hm | hm
        · exact hfresh k (List.mem_cons.mpr (Or.inr hk)) hm
        · have : k = kv.1 := by simpa using hm
          exact (List.nodup_cons.mp hnd).1 (this ▸ hk)

theorem dget_removeSources_of_not_mem (fks : List (String × String)) (af : PyDict)
    (k : String) (h : k ∉ fks.map Prod.snd) :
    dget (removeSources fks af) k = dget af k := by
  induction fks generalizing af with
  | nil => rfl
  | cons kv rest ih =>
    simp only [List.map_cons, List.mem_cons] at h
    push_neg at h
    show dget (removeSources rest (dremove af kv.2)) k = dget af k
    rw [ih _ h.2, dget_dremove_ne _ _ _ h.1]

theorem dkeys_removeSources (fks : List (String × String)) (af : PyDict) :
    dkeys (removeSources fks af) =
      (dkeys af).filter (fun x => decide (x ∉ fks.map Prod.snd)) := by
  induction fks generalizing af with
  | nil => simp [removeSources]
  | cons kv rest ih =>
    show dkeys (removeSources rest (dremove af kv.2)) = _
    rw [ih, dkeys_dremove, List.filter_filter]
    apply List.filter_congr
    intro x _
    by_cases h2 : x = kv.2 <;> by_cases hm : x ∈ rest.map Prod.snd <;>
      simp [h2, hm]

theorem removeSources_of_disjoint (fks : List (String × String)) (af : PyDict)
    (h : ∀ p ∈ fks, p.2 ∉ dkeys af) : removeSources fks af = af := by
  induction fks with
  | nil => rfl
  | cons kv rest ih =>
    show removeSources rest (dremove af kv.2) = af
    rw [dremove_of_not_mem _ _ (h kv (List.mem_cons_self _ _))]
    exact ih (fun p hp => h p (List.mem_cons.mpr (Or.inr hp)))

theorem dget_always_fields_message (r : LogRecord) :
    dget (always_fields r) "message" = some (Value.vstr r.rendered) := by
  cases r.exc_info <;> cases r.stack_info <;> simp [always_fields, dget]

theorem dget_always_fields_timestamp (r : LogRecord) :
    dget (always_fields r) "timestamp" = some (Value.vstr (isoUtc r.created)) := by
  cases r.exc_info <;> cases r.stack_info <;> simp [always_fields, dget]

theorem dget_always_fields_exc (r : LogRecord) (e : String)
    (h : r.exc_info = some e) :
    dget (always_fields r) "exc_info" = some (Value.vstr (formatException e)) := by
  cases hs : r.stack_info <;> simp [always_fields, dget, h, hs]

theorem dget_always_fields_stack (r : LogRecord) (s : String)
    (h : r.stack_info = some s) :
    dget (always_fields r) "stack_info" = some (Value.vstr (formatStack s)) := by
  cases he : r.exc_info <;> simp [always_fields, dget, h, he]

theorem dkeys_always_fields_subset (r : LogRecord) :
    ∀ k ∈ dkeys (always_fields r), k ∈ reservedNames := by
  intro k hk
  cases he : r.exc_info <;> cases hs : r.stack_info <;>
    simp [always_fields, dkeys, he, hs, reservedNames] at hk ⊢ <;> tauto

theorem dkeys_always_fields_nodup (r : LogRecord) :
    (dkeys (always_fields r)).Nodup := by
  cases he : r.exc_info <;> cases hs : r.stack_info <;>
    simp [always_fields, dkeys, he, hs]

theorem message_mem_dkeys_always_fields (r : LogRecord) :
    "message" ∈ dkeys (always_fields r) := by
  cases he : r.exc_info <;> cases hs : r.stack_info <;>
    simp [always_fields, dkeys, he, hs]

theorem timestamp_mem_dkeys_always_fields (r : LogRecord) :
    "timestamp" ∈ dkeys (always_fields r) := by
  cases he : r.exc_info <;> cases hs : r.stack_info <;>
    simp [always_fields, dkeys, he, hs]

theorem extraKeys_eq_filter (attrs : List (String × Value)) :
    extraKeys attrs =
      (dkeys attrs).filter (fun x => !decide (x ∈ LOG_RECORD_BUILTIN_ATTRS)) := by
  simpa [extraKeys] using
    dkeys_filter_key attrs (fun x => !decide (x ∈ LOG_RECORD_BUILTIN_ATTRS))

theorem builtin_not_mem_extraKeys (attrs : List (String × Value)) (k : String)
    (h : k ∈ LOG_RECORD_BUILTIN_ATTRS) : k ∉ extraKeys attrs := by
  rw [extraKeys_eq_filter]
  intro hm
  have := List.of_mem_filter hm
  simp [h] at this

theorem nodup_dkeys_removeSources (fks : List (String × String)) (af : PyDict)
    (h : (dkeys af).Nodup) : (dkeys (removeSources fks af)).Nodup := by
  rw [dkeys_removeSources]
  exact h.filter _

theorem mem_dkeys_removeSources (fks : List (String × String)) (af : PyDict)
    (k : String) :
    k ∈ dkeys (removeSources fks af) ↔
      k ∈ dkeys af ∧ k ∉ fks.map Prod.snd := by
  rw [dkeys_removeSources, List.mem_filter]
  simp

theorem prepare_some_elim (fks : List (String × String)) (r : LogRecord)
    (d : PyDict) (h : prepare_log_dict fks r = some d) :
    ∃ m, List.foldl (fmtStep r) (some ([], always_fields r)) fks =
        some (m, removeSources fks (always_fields r)) ∧
      d = extrasFold r.attrs (dupdate m (removeSources fks (always_fields r))) := by
  unfold prepare_log_dict at h
  cases hf : List.foldl (fmtStep r) (some ([], always_fields r)) fks with
  | none => rw [hf] at h; cases h
  | some q =>
    obtain ⟨m, af'⟩ := q
    rw [hf] at h
    obtain ⟨haf, _, _⟩ := foldl_fmtStep_spec r fks _ _ _ _ hf
    subst haf
    exact ⟨m, rfl, (Option.some_inj.mp h).symm⟩

theorem prepare_dget_unconsumed (fks : List (String × String)) (r : LogRecord)
    (d : PyDict) (k : String) (h : prepare_log_dict fks r = some d)
    (hsrc : k ∉ fks.map Prod.snd) (hextra : k ∉ extraKeys r.attrs)
    (hmem : k ∈ dkeys (always_fields r)) :
    dget d k = dget (always_fields r) k := by
  obtain ⟨m, hf, hd⟩ := prepare_some_elim fks r d h
  subst hd
  rw [dget_extrasFold _ _ _ hextra]
  rw [dget_dupdate _ _ _ (nodup_dkeys_removeSources _ _ (dkeys_always_fields_nodup r))]
  rw [dget_removeSources_of_not_mem _ _ _ hsrc]
  cases hg : dget (always_fields r) k with
  | none =>
    exfalso
    revert hmem hg
    generalize always_fields r = af
    induction af with
    | nil => intro hmem _; simp [dkeys] at hmem
    | cons p rest ih =>
      intro hmem hg
      by_cases hp : p.1 = k
      · simp [dget, hp] at hg
      · have : k ∈ dkeys rest := by
          rcases (mem_dkeys_cons _ _ _).mp hmem with hc | hc
          · exact absurd hc.symm hp
          · exact hc
        exact ih this (by simpa [dget, hp] using hg)
  | some v => rfl

theorem encodeWithDefault_isSome (f : Value → String) (v : Value) :
    (encodeWithDefault (some f) v).isSome = true := by
  cases v <;> simp [encodeWithDefault, encodeNative]

theorem encodeEntries_isSome (f : Value → String) (d : PyDict) :
    (encodeEntries (some f) d).isSome = true := by
  induction d with
  | nil => rfl
  | cons p rest ih =>
    obtain ⟨s, hs⟩ := Option.isSome_iff_exists.mp (encodeWithDefault_isSome f p.2)
    obtain ⟨ss, hss⟩ := Option.isSome_iff_exists.mp ih
    simp [encodeEntries, hs, hss]

theorem foldl_put_running (q dl rs : List LogRecord) :
    rs.foldl Bridge.put (Bridge.mk BridgeState.running q dl) =
      Bridge.mk BridgeState.running (q ++ rs) dl := by
  induction rs generalizing q with
  | nil => simp
  | cons x xs ih =>
    show xs.foldl Bridge.put (Bridge.put (Bridge.mk BridgeState.running q dl) x) = _
    rw [show Bridge.put (Bridge.mk BridgeState.running q dl) x =
        Bridge.mk BridgeState.running (q ++ [x]) dl from rfl]
    rw [ih]
    simp

/-- Claim C2: formatting the record of the spec's end-to-end example
(severity INFO, message "Started application", extra note field) with the
mapping of level to levelname, message to message and timestamp to
timestamp yields exactly the keys level, message, timestamp and note, the
note key holding the extra value. -/
theorem C2_end_to_end_example :
    (prepare_log_dict fmtKeysJson rApp).map dkeys =
      some ["level", "message", "timestamp", "note"] ∧
    (prepare_log_dict fmtKeysJson rApp).bind (fun d => dget d "note") =
      some (Value.vstr "some extra info here") := by
  constructor <;> rfl

/-- Claim C3: NonErrorFilter.filter accepts a record exactly when its
severity is at most INFO; DEBUG and INFO are admitted, WARNING, ERROR and
CRITICAL are rejected. -/
theorem C3_non_error_filter : ∀ r : LogRecord,
    (NonErrorFilter.filter r = true ↔ r.levelno ≤ INFO) ∧
    NonErrorFilter.filter { r with levelno := DEBUG } = true ∧
    NonErrorFilter.filter { r with levelno := INFO } = true ∧
    NonErrorFilter.filter { r with levelno := WARNING } = false ∧
    NonErrorFilter.filter { r with levelno := ERROR } = false ∧
    NonErrorFilter.filter { r with levelno := CRITICAL } = false := by
  intro r
  refine ⟨?_, ?_, ?_, ?_, ?_, ?_⟩ <;>
    simp [NonErrorFilter.filter, INFO, DEBUG, WARNING, ERROR, CRITICAL]

/-- Claim C5: JsonFormatter.format never fails during serialization:
whenever the log dict is prepared, `json.dumps` with the `default=str`
hook succeeds, every non-JSON-native value being rendered through its
string conversion. -/
theorem C5_serialization_total :
    ∀ (fks : List (String × String)) (ind : Option Bool) (r : LogRecord),
    (prepare_log_dict fks r).isSome = true →
    (JsonFormatter.format fks ind r).isSome = true := by
  intro fks ind r h
  obtain ⟨d, hd⟩ := Option.isSome_iff_exists.mp h
  unfold JsonFormatter.format
  rw [hd]
  show (dumps (some pyStr) ind d).isSome = true
  unfold dumps
  obtain ⟨ss, hss⟩ := Option.isSome_iff_exists.mp (encodeEntries_isSome pyStr d)
  rw [hss]
  cases ind <;> simp

/-- Witness for C5 at a record carrying a non-JSON-native extra value. -/
theorem C5_serialization_total_witness :
    (prepare_log_dict [] rObj).isSome = true ∧
    (JsonFormatter.format [] none rObj).isSome = true :=
  ⟨rfl, C5_serialization_total [] none rObj rfl⟩

/-- Claim C7 (spec-modelled): stop() on the AsyncBridge is idempotent: a
second stop is a no-op that delivers nothing twice, and stop on a
never-started bridge changes nothing. -/
theorem C7_stop_idempotent : ∀ b : Bridge,
    b.stop.stop = b.stop ∧
    b.stop.stop.delivered = b.stop.delivered ∧
    (Bridge.mk BridgeState.unstarted b.queue b.delivered).stop =
      Bridge.mk BridgeState.unstarted b.queue b.delivered := by
  intro b
  obtain ⟨st, q, dl⟩ := b
  cases st <;> simp [Bridge.stop]

/-- Claim C8 (spec-modelled): every record enqueued on a running
AsyncBridge before stop() is delivered to the Dispatcher by the time
stop() returns, in FIFO order after the records already queued. -/
theorem C8_drain_on_stop : ∀ q dl rs : List LogRecord,
    ((rs.foldl Bridge.put (Bridge.mk BridgeState.running q dl)).stop).delivered
      = dl ++ q ++ rs ∧
    ((rs.foldl Bridge.put (Bridge.mk BridgeState.running q dl)).stop).state
      = BridgeState.stopped := by
  intro q dl rs
  rw [foldl_put_running]
  simp [Bridge.stop, List.append_assoc]

/-- Counterexample to claim C9: with a configuration that defines a queue
handler, calling setup_logging twice does not leave the same observable
state as calling it once (a second listener thread is started and a second
atexit hook is registered). -/
theorem C9_setup_not_idempotent :
    setup_logging (setup_logging (SysState.mk true 0 0)) ≠
      setup_logging (SysState.mk true 0 0) := by
  decide

/-- Claim C9 as amended: a second setup_logging call adds one more started
listener and one more registered shutdown hook whenever the configuration
defines a queue handler; only with no queue handler is the call a no-op. -/
theorem C9_setup_second_call_effect : ∀ s : SysState,
    (setup_logging (setup_logging s)).startedListeners =
      s.startedListeners + (if s.configHasQueueHandler then 2 else 0) ∧
    (setup_logging (setup_logging s)).atexitHooks =
      s.atexitHooks + (if s.configHasQueueHandler then 2 else 0) ∧
    setup_logging { s with configHasQueueHandler := false } =
      { s with configHasQueueHandler := false } := by
  intro s
  obtain ⟨c, n, a⟩ := s
  cases c <;> simp [setup_logging]

/-- Counterexample to claim C1: a caller-supplied extra field named
timestamp (whose name is absent from LOG_RECORD_BUILTIN_ATTRS) overwrites
the implicitly computed ISO timestamp in the output, even with an empty
field mapping that remaps nothing. -/
theorem C1_extra_timestamp_shadows :
    (prepare_log_dict [] rShadow).bind (fun d => dget d "timestamp") =
      some (Value.vstr "boom") ∧
    Value.vstr "boom" ≠ Value.vstr (isoUtc rShadow.created) := by
  constructor
  · rfl
  · decide

/-- Claim C1 as amended: when the field mapping does not name any of the
reserved fields, the emitted message, exc_info and stack_info keys always
hold the implicitly computed values (those names are built-in attributes,
so extra fields cannot carry them); the timestamp key alone can be
shadowed by an extra field, as the counterexample shows. -/
theorem C1_reserved_not_shadowed_amended :
    ∀ (fks : List (String × String)) (r : LogRecord) (d : PyDict),
    prepare_log_dict fks r = some d →
    (∀ p ∈ fks, p.1 ∉ reservedNames ∧ p.2 ∉ reservedNames) →
    dget d "message" = some (Value.vstr r.rendered) ∧
    (∀ e, r.exc_info = some e →
      dget d "exc_info" = some (Value.vstr (formatException e))) ∧
    (∀ s, r.stack_info = some s →
      dget d "stack_info" = some (Value.vstr (formatStack s))) := by
  intro fks r d h hres
  have hsrc : ∀ k ∈ reservedNames, k ∉ fks.map Prod.snd := by
    intro k hk hm
    rcases List.mem_map.mp hm with ⟨p, hp, hpk⟩
    exact (hres p hp).2 (hpk ▸ hk)
  refine ⟨?_, ?_, ?_⟩
  · rw [prepare_dget_unconsumed fks r d "message" h
      (hsrc _ (by simp [reservedNames]))
      (builtin_not_mem_extraKeys _ _ (by simp [LOG_RECORD_BUILTIN_ATTRS]))
      (message_mem_dkeys_always_fields r)]
    exact dget_always_fields_message r
  · intro e he
    have hmem : "exc_info" ∈ dkeys (always_fields r) := by
      cases hs : r.stack_info <;> simp [always_fields, dkeys, he, hs]
    rw [prepare_dget_unconsumed fks r d "exc_info" h
      (hsrc _ (by simp [reservedNames]))
      (builtin_not_mem_extraKeys _ _ (by simp [LOG_RECORD_BUILTIN_ATTRS]))
      hmem]
    exact dget_always_fields_exc r e he
  · intro st hst
    have hmem : "stack_info" ∈ dkeys (always_fields r) := by
      cases hexc : r.exc_info <;> simp [always_fields, dkeys, hexc, hst]
    rw [prepare_dget_unconsumed fks r d "stack_info" h
      (hsrc _ (by simp [reservedNames]))
      (builtin_not_mem_extraKeys _ _ (by simp [LOG_RECORD_BUILTIN_ATTRS]))
      hmem]
    exact dget_always_fields_stack r st hst

/-- Witness for the amended C1 at a record with exception and stack
information, formatted with a mapping that touches no reserved name. -/
theorem C1_reserved_not_shadowed_witness :
    (prepare_log_dict [("level", "levelname")] rExc).bind
      (fun d => dget d "message") = some (Value.vstr "boom happened") ∧
    (prepare_log_dict [("level", "levelname")] rExc).bind
      (fun d => dget d "exc_info") =
        some (Value.vstr (formatException "Traceback: ValueError")) ∧
    (prepare_log_dict [("level", "levelname")] rExc).bind
      (fun d => dget d "stack_info") =
        some (Value.vstr (formatStack "Stack: main")) := by
  have h : prepare_log_dict [("level", "levelname")] rExc =
      some (Option.get (prepare_log_dict [("level", "levelname")] rExc)
        (by rfl)) := by rfl
  obtain ⟨h1, h2, h3⟩ := C1_reserved_not_shadowed_amended
    [("level", "levelname")] rExc _ h (by decide)
  refine ⟨?_, ?_, ?_⟩
  · rw [h, Option.some_bind, h1]
    rfl
  · rw [h, Option.some_bind, h2 "Traceback: ValueError" rfl]
  · rw [h, Option.some_bind, h3 "Stack: main" rfl]

/-- Counterexample to claim C4: a field mapping that consumes the implicit
message field under a different output key (msg) produces an object with
no message key at all. -/
theorem C4_message_key_remapped_away :
    (prepare_log_dict [("msg", "message")] rPlain).map dkeys =
      some ["msg", "timestamp"] ∧
    "message" ∉ ["msg", "timestamp"] := by
  constructor
  · rfl
  · decide

/-- Claim C4 as amended: whenever the field mapping does not consume the
message or timestamp fields as sources and the record carries no extra
field named timestamp, the prepared object (and hence the parsed JSON)
contains the message key with the rendered message and the timestamp key
with an ISO-8601 UTC instant. -/
theorem C4_roundtrip_keys_amended :
    ∀ (fks : List (String × String)) (r : LogRecord) (d : PyDict),
    prepare_log_dict fks r = some d →
    "message" ∉ fks.map Prod.snd →
    "timestamp" ∉ fks.map Prod.snd →
    "timestamp" ∉ extraKeys r.attrs →
    dget d "message" = some (Value.vstr r.rendered) ∧
    dget d "timestamp" = some (Value.vstr (isoUtc r.created)) ∧
    IsIso8601Utc (isoUtc r.created) := by
  intro fks r d h hmsg hts hex
  refine ⟨?_, ?_, ⟨r.created, rfl⟩⟩
  · rw [prepare_dget_unconsumed fks r d "message" h hmsg
      (builtin_not_mem_extraKeys _ _ (by simp [LOG_RECORD_BUILTIN_ATTRS]))
      (message_mem_dkeys_always_fields r)]
    exact dget_always_fields_message r
  · rw [prepare_dget_unconsumed fks r d "timestamp" h hts hex
      (timestamp_mem_dkeys_always_fields r)]
    exact dget_always_fields_timestamp r

/-- Witness for the amended C4 at a plain record and a mapping that leaves
message and timestamp untouched. -/
theorem C4_roundtrip_keys_witness :
    (prepare_log_dict [("level", "levelname")] rPlain).bind
      (fun d => dget d "message") = some (Value.vstr "hello") ∧
    (prepare_log_dict [("level", "levelname")] rPlain).bind
      (fun d => dget d "timestamp") =
        some (Value.vstr "1970-01-01T00:00:00+00:00") := by
  have h : prepare_log_dict [("level", "levelname")] rPlain =
      some (Option.get (prepare_log_dict [("level", "levelname")] rPlain)
        (by rfl)) := by rfl
  obtain ⟨h1, h2, -⟩ := C4_roundtrip_keys_amended
    [("level", "levelname")] rPlain _ h (by decide) (by decide) (by decide)
  constructor
  · rw [h, Option.some_bind, h1]
    rfl
  · rw [h, Option.some_bind, h2]
    rfl

/-- Claim C10: the key set of the prepared object is exactly the mapped
output keys, plus the always-present fields not consumed as mapping
sources, plus the non-built-in record attributes; consequently a built-in
attribute that is neither mapped nor one of the reserved implicit names
never appears as an output key. -/
theorem C10_key_set_exact :
    ∀ (fks : List (String × String)) (r : LogRecord) (d : PyDict),
    prepare_log_dict fks r = some d →
    (∀ k, k ∈ dkeys d ↔
      k ∈ fks.map Prod.fst ∨
      (k ∈ dkeys (always_fields r) ∧ k ∉ fks.map Prod.snd) ∨
      k ∈ extraKeys r.attrs) ∧
    (∀ k, k ∈ LOG_RECORD_BUILTIN_ATTRS → k ∉ fks.map Prod.fst →
      k ∉ reservedNames → k ∉ dkeys d) := by
  intro fks r d h
  obtain ⟨m, hf, hd⟩ := prepare_some_elim fks r d h
  obtain ⟨-, hkeys, -⟩ := foldl_fmtStep_spec r fks _ _ _ _ hf
  subst hd
  have part1 : ∀ k,
      k ∈ dkeys (extrasFold r.attrs
        (dupdate m (removeSources fks (always_fields r)))) ↔
      k ∈ fks.map Prod.fst ∨
      (k ∈ dkeys (always_fields r) ∧ k ∉ fks.map Prod.snd) ∨
      k ∈ extraKeys r.attrs := by
    intro k
    rw [mem_dkeys_extrasFold, mem_dkeys_dupdate, hkeys k,
      mem_dkeys_removeSources]
    have : k ∉ dkeys ([] : PyDict) := by simp [dkeys]
    tauto
  refine ⟨part1, ?_⟩
  intro k hb hM hres hmem
  rcases (part1 k).mp hmem with hc | ⟨hc, -⟩ | hc
  · exact hM hc
  · exact hres (dkeys_always_fields_subset r k hc)
  · exact builtin_not_mem_extraKeys r.attrs k hb hc

/-- Witness for C10 at the end-to-end example record and mapping,
evaluated at the extra key note. -/
theorem C10_key_set_exact_witness :
    "note" ∈ dkeys (Option.get (prepare_log_dict fmtKeysJson rApp) (by rfl)) ↔
      "note" ∈ fmtKeysJson.map Prod.fst ∨
      ("note" ∈ dkeys (always_fields rApp) ∧
        "note" ∉ fmtKeysJson.map Prod.snd) ∨
      "note" ∈ extraKeys rApp.attrs :=
  (C10_key_set_exact fmtKeysJson rApp _ (by rfl)).1 "note"

/-- Counterexample to claim C6: when an extra field name collides with a
mapped output key, the extra field's key keeps the mapped position (first)
instead of appearing last, so the emitted key sequence is not the mapped
keys, then the unconsumed implicit fields, then the extra fields. -/
theorem C6_extra_collides_with_mapped_key :
    (prepare_log_dict [("note", "levelname")] rCollide).map dkeys =
      some ["note", "message", "timestamp"] ∧
    ["note", "message", "timestamp"] ≠
      [("note", "levelname")].map Prod.fst ++
        (dkeys (always_fields rCollide)).filter
          (fun x => decide (x ∉ [("note", "levelname")].map Prod.snd)) ++
        extraKeys rCollide.attrs := by
  constructor
  · rfl
  · decide

/-- Claim C6 as amended: provided no name collisions exist between the
mapped output keys, the reserved implicit names and the extra field
names (and the mapped and extra key lists are duplicate-free, as Python
dicts guarantee), the emitted keys are exactly the mapped output keys in
mapping order, then the unconsumed implicit fields, then the extra fields,
in that order. -/
theorem C6_key_order_amended :
    ∀ (fks : List (String × String)) (r : LogRecord) (d : PyDict),
    prepare_log_dict fks r = some d →
    (fks.map Prod.fst).Nodup →
    (extraKeys r.attrs).Nodup →
    (∀ k ∈ fks.map Prod.fst, k ∉ reservedNames ∧ k ∉ extraKeys r.attrs) →
    (∀ k ∈ extraKeys r.attrs, k ∉ reservedNames) →
    dkeys d = fks.map Prod.fst ++
      (dkeys (always_fields r)).filter
        (fun x => decide (x ∉ fks.map Prod.snd)) ++
      extraKeys r.attrs := by
  intro fks r d h hndM hndX hM hX
  obtain ⟨m, hf, hd⟩ := prepare_some_elim fks r d h
  subst hd
  have hsub := dkeys_always_fields_subset r
  have hmkeys : dkeys m = fks.map Prod.fst := by
    have hx := foldl_fmtStep_keys_exact r fks [] (always_fields r) m _ hf hndM
      (fun k _ => by simp [dkeys])
    simpa [dkeys] using hx
  have hafnd : (dkeys (removeSources fks (always_fields r))).Nodup :=
    nodup_dkeys_removeSources _ _ (dkeys_always_fields_nodup r)
  have hdisj1 : ∀ k ∈ dkeys (removeSources fks (always_fields r)),
      k ∉ dkeys m := by
    intro k hk
    rw [hmkeys]
    intro hm
    have hk' : k ∈ dkeys (always_fields r) :=
      ((mem_dkeys_removeSources _ _ _).mp hk).1
    exact (hM k hm).1 (hsub k hk')
  rw [dupdate_append _ _ hdisj1 hafnd]
  have hdisj2 : ∀ k ∈ extraKeys r.attrs,
      k ∉ dkeys (m ++ removeSources fks (always_fields r)) := by
    intro k hk
    rw [dkeys_append, hmkeys]
    intro hm
    rcases List.mem_append.mp hm with hc | hc
    · exact (hM k hc).2 hk
    · have hk' : k ∈ dkeys (always_fields r) :=
        ((mem_dkeys_removeSources _ _ _).mp hc).1
      exact hX k hk (hsub k hk')
  rw [extrasFold_append _ _ hndX hdisj2]
  rw [dkeys_append, dkeys_append, hmkeys, dkeys_removeSources]
  rfl

/-- Witness for the amended C6 at the example record with a
collision-free mapping. -/
theorem C6_key_order_witness :
    dkeys (Option.get (prepare_log_dict [("level", "levelname")] rApp)
        (by rfl)) =
      [("level", "levelname")].map Prod.fst ++
      (dkeys (always_fields rApp)).filter
        (fun x => decide (x ∉ [("level", "levelname")].map Prod.snd)) ++
      extraKeys rApp.attrs := by
  have h : prepare_log_dict [("level", "levelname")] rApp =
      some (Option.get (prepare_log_dict [("level", "levelname")] rApp)
        (by rfl)) := by rfl
  exact C6_key_order_amended [("level", "levelname")] rApp _ h
    (by decide) (by decide) (by decide) (by decide)
